import Mathlib

/-
Verification development for the Anna_TaiBot booking assistant.

The source is embedded shallowly:
  * Python datetimes are modelled at minute granularity as a calendar
    structure (year, month, day, hour, minute); Python compares datetime
    objects field-wise lexicographically, which dtLt reproduces.
  * The remote Google-calendar free/busy query is a function parameter of
    type FB; a transport/auth failure of the remote call is the
    Except.error case, and a Python exception propagating out of a
    function is modelled by the function returning Except.error.
  * The date / time strings exchanged between bot.py and booking.py
    ("YYYY-MM-DD", "HH:MM") are real Lean strings, produced and parsed
    by char-level models of strftime / strptime for the formats the
    source uses.
-/

/-! ## Calendar core (model of Python datetime at minute granularity) -/

structure Date where
  year : Nat
  month : Nat
  day : Nat
deriving DecidableEq, Repr

structure DateTime where
  date : Date
  hour : Nat
  minute : Nat
deriving DecidableEq, Repr

/-- Lexicographic strict order on dates, as Python compares date objects. -/
def dateLt (a b : Date) : Bool :=
  a.year < b.year ||
    (a.year == b.year &&
      (a.month < b.month || (a.month == b.month && a.day < b.day)))

/-- Lexicographic strict order on datetimes, as Python compares datetime objects. -/
def dtLt (a b : DateTime) : Bool :=
  dateLt a.date b.date ||
    (a.date == b.date &&
      (a.hour < b.hour || (a.hour == b.hour && a.minute < b.minute)))

def dtLe (a b : DateTime) : Bool := dtLt a b || a == b

/-- Leap-year rule, as the Gregorian calendar used by Python datetime. -/
def isLeap (y : Nat) : Bool :=
  y % 4 == 0 && (y % 100 != 0 || y % 400 == 0)

def daysInMonth (y m : Nat) : Nat :=
  if m == 2 then (if isLeap y then 29 else 28)
  else if m == 4 || m == 6 || m == 9 || m == 11 then 30
  else 31

/-- Valid Python date: datetime.MINYEAR = 1, datetime.MAXYEAR = 9999. -/
def validDate (d : Date) : Bool :=
  1 ≤ d.year && d.year ≤ 9999 && 1 ≤ d.month && d.month ≤ 12 &&
    1 ≤ d.day && d.day ≤ daysInMonth d.year d.month

def validDT (dt : DateTime) : Bool :=
  validDate dt.date && dt.hour ≤ 23 && dt.minute ≤ 59

/-- The calendar successor of a date (one day later). -/
def nextDay (d : Date) : Date :=
  if d.day < daysInMonth d.year d.month then ⟨d.year, d.month, d.day + 1⟩
  else if d.month < 12 then ⟨d.year, d.month + 1, 1⟩
  else ⟨d.year + 1, 1, 1⟩

def addDaysN (n : Nat) (d : Date) : Date :=
  match n with
  | 0 => d
  | n + 1 => nextDay (addDaysN n d)

/-- Model of Python datetime + timedelta(minutes=k) for nonnegative k. -/
def addMinutes (dt : DateTime) (k : Nat) : DateTime :=
  let tot := dt.hour * 60 + dt.minute + k
  ⟨addDaysN (tot / 1440) dt.date, tot % 1440 / 60, tot % 1440 % 60⟩

/-- start.replace(minute=0, second=0, microsecond=0) -/
def hourFloor (dt : DateTime) : DateTime := ⟨dt.date, dt.hour, 0⟩

/-- datetime.combine(day, dtime(h, 0)) -/
def atTime (d : Date) (h : Nat) : DateTime := ⟨d, h, 0⟩

/-! ## Model of the strftime / strptime string formats used by the source
("%Y-%m-%d", "%H:%M").  Formatting is char-level zero padding; parsing
mirrors the regexes Python's strptime compiles for these directives,
including their 1-or-2-digit tolerance, followed by the calendar
validation the datetime constructor performs. -/

def digitChar (n : Nat) : Char := Char.ofNat (48 + n)

def digitVal (c : Char) : Nat := c.toNat - 48

/-- Two-digit zero padding (all padded values in the source are < 100). -/
def pad2 (n : Nat) : List Char := [digitChar (n / 10 % 10), digitChar (n % 10)]

/-- Four-digit zero padding: Python datetime years are always ≤ 9999. -/
def pad4 (n : Nat) : List Char :=
  [digitChar (n / 1000 % 10), digitChar (n / 100 % 10),
   digitChar (n / 10 % 10), digitChar (n % 10)]

/-- date.strftime("%Y-%m-%d") and the f-string "{y:04d}-{m:02d}-{d:02d}". -/
def fmtDate (d : Date) : String := ⟨pad4 d.year ++ '-' :: pad2 d.month ++ '-' :: pad2 d.day⟩

/-- datetime.strftime("%H:%M") and the f-string "{hh:02d}:{mm:02d}". -/
def fmtHM (h mi : Nat) : String := ⟨pad2 h ++ ':' :: pad2 mi⟩

def fmtYMD (y m d : Nat) : String := ⟨pad4 y ++ '-' :: pad2 m ++ '-' :: pad2 d⟩

def fmtD (dt : DateTime) : String := fmtDate dt.date

def fmtT (dt : DateTime) : String := fmtHM dt.hour dt.minute

def fmtPair (dt : DateTime) : String × String := (fmtD dt, fmtT dt)

/-- One numeric field of strptime: Python compiles %m, %d, %H, %M to
regexes that accept two digits in a value range, or one digit as a
fallback (e.g. %m is 1[0-2]|0[1-9]|[1-9]).  Returns the value and the
unconsumed characters. -/
def parseTok (lo2 hi2 lo1 : Nat) (cs : List Char) : Option (Nat × List Char) :=
  match cs with
  | a :: b :: rest =>
    if a.isDigit && b.isDigit then
      let v := digitVal a * 10 + digitVal b
      if lo2 ≤ v && v ≤ hi2 then some (v, rest)
      else if lo1 ≤ digitVal a then some (digitVal a, b :: rest)
      else none
    else if a.isDigit && lo1 ≤ digitVal a then some (digitVal a, b :: rest)
    else none
  | [a] => if a.isDigit && lo1 ≤ digitVal a then some (digitVal a, []) else none
  | [] => none

/-- strptime of a full "%Y-%m-%d" string (%Y is exactly four digits),
followed by the datetime constructor's calendar validation. -/
def parseDateCs (cs : List Char) : Option Date :=
  match cs with
  | c1 :: c2 :: c3 :: c4 :: '-' :: rest =>
    if c1.isDigit && c2.isDigit && c3.isDigit && c4.isDigit then
      let y := digitVal c1 * 1000 + digitVal c2 * 100 + digitVal c3 * 10 + digitVal c4
      match parseTok 1 12 1 rest with
      | some (m, '-' :: rest2) =>
        match parseTok 1 31 1 rest2 with
        | some (d, []) =>
          if 1 ≤ y && d ≤ daysInMonth y m then some ⟨y, m, d⟩ else none
        | _ => none
      | _ => none
    else none
  | _ => none

/-- strptime of a full "%H:%M" string. -/
def parseTimeCs (cs : List Char) : Option (Nat × Nat) :=
  match parseTok 0 23 0 cs with
  | some (h, ':' :: rest) =>
    match parseTok 0 59 0 rest with
    | some (mi, []) => some (h, mi)
    | _ => none
  | _ => none

/-- datetime.strptime(f"{date_str} {time_str}", "%Y-%m-%d %H:%M"),
with the two halves of the format applied to the two strings. -/
def strptime2 (ds ts : String) : Option DateTime :=
  match parseDateCs ds.data, parseTimeCs ts.data with
  | some d, some (h, mi) => some ⟨d, h, mi⟩
  | _, _ => none

/-! ## Model of the regex searches used by booking.py
(_TIME_HM, _DATE_ISO, _DATE_DMY) over the lowercased, stripped text.
Positions index into the text as a list of characters; out-of-range
positions read as a space, which is neither a word character nor a digit,
so boundary and digit tests at the ends of the text come out right. -/

/-- Word character for the \b boundary: Python re treats letters, digits,
the underscore and (in unicode mode) Cyrillic letters as word characters.
The source texts mix ASCII and Cyrillic, so both ranges are covered. -/
def isWordChar (c : Char) : Bool :=
  c.isAlphanum || c == '_' || (0x400 ≤ c.toNat && c.toNat ≤ 0x4FF)

def charAt (t : List Char) (i : Nat) : Char := t.getD i ' '

def wordAt (t : List Char) (i : Nat) : Bool := isWordChar (charAt t i)

/-- The \b test before a match that starts with a word character. -/
def bdryBefore (t : List Char) (i : Nat) : Bool :=
  match i with
  | 0 => true
  | j + 1 => !(wordAt t j)

def digAt (t : List Char) (i : Nat) : Bool := (charAt t i).isDigit

def dval (t : List Char) (i : Nat) : Nat := digitVal (charAt t i)

/-- The [:.] separator class of _TIME_HM. -/
def isSepTime (c : Char) : Bool := c == ':' || c == '.'

/-- The separator class of _DATE_DMY: dot, hyphen or slash. -/
def isSepD (c : Char) : Bool := c == '.' || c == '-' || c == '/'

/-- Match of _TIME_HM = \b([01]?\d|2[0-3])[:.](\d{2})\b at position i,
with the alternatives in the order Python's backtracking tries them:
greedy [01]?\d as two digits, then [01]?\d as one digit, then 2[0-3].
Returns (end position, hour, minute). -/
def timeCore (t : List Char) (i : Nat) : Option (Nat × Nat × Nat) :=
  if (charAt t i == '0' || charAt t i == '1') && digAt t (i+1)
      && isSepTime (charAt t (i+2)) && digAt t (i+3) && digAt t (i+4)
      && !(wordAt t (i+5)) then
    some (i+5, dval t i * 10 + dval t (i+1), dval t (i+3) * 10 + dval t (i+4))
  else if digAt t i && isSepTime (charAt t (i+1)) && digAt t (i+2) && digAt t (i+3)
      && !(wordAt t (i+4)) then
    some (i+4, dval t i, dval t (i+2) * 10 + dval t (i+3))
  else if charAt t i == '2'
      && (charAt t (i+1) == '0' || charAt t (i+1) == '1'
          || charAt t (i+1) == '2' || charAt t (i+1) == '3')
      && isSepTime (charAt t (i+2)) && digAt t (i+3) && digAt t (i+4)
      && !(wordAt t (i+5)) then
    some (i+5, 20 + dval t (i+1), dval t (i+3) * 10 + dval t (i+4))
  else none

def matchTimeAt (t : List Char) (i : Nat) : Option (Nat × Nat × Nat) :=
  if bdryBefore t i then timeCore t i else none

/-- re.search: the leftmost match of _TIME_HM.
Returns (start, end, hour, minute). -/
def timeSearchFrom (t : List Char) : Nat → Nat → Option (Nat × Nat × Nat × Nat)
  | 0, _ => none
  | fuel + 1, i =>
    match matchTimeAt t i with
    | some (e, hh, mm) => some (i, e, hh, mm)
    | none => timeSearchFrom t fuel (i + 1)

def timeSearch (t : List Char) : Option (Nat × Nat × Nat × Nat) :=
  timeSearchFrom t (t.length + 1) 0

/-- Match of _DATE_ISO = \b(\d{4})-(\d{2})-(\d{2})\b at position i.
Returns (end, year, month, day). -/
def matchISOAt (t : List Char) (i : Nat) : Option (Nat × Nat × Nat × Nat) :=
  if bdryBefore t i && digAt t i && digAt t (i+1) && digAt t (i+2) && digAt t (i+3)
      && charAt t (i+4) == '-' && digAt t (i+5) && digAt t (i+6)
      && charAt t (i+7) == '-' && digAt t (i+8) && digAt t (i+9)
      && !(wordAt t (i+10)) then
    some (i+10,
      dval t i * 1000 + dval t (i+1) * 100 + dval t (i+2) * 10 + dval t (i+3),
      dval t (i+5) * 10 + dval t (i+6),
      dval t (i+8) * 10 + dval t (i+9))
  else none

def isoSearchFrom (t : List Char) : Nat → Nat → Option (Nat × Nat × Nat × Nat)
  | 0, _ => none
  | fuel + 1, i =>
    match matchISOAt t i with
    | some r => some r
    | none => isoSearchFrom t fuel (i + 1)

def isoSearch (t : List Char) : Option (Nat × Nat × Nat × Nat) :=
  isoSearchFrom t (t.length + 1) 0

/-- The optional year tail of _DATE_DMY (separator then two to four digits) followed by a word boundary,
with the year quantifier greedy (4 digits, then 3, then 2, then the group
absent).  Returns (end position, optional year). -/
def dmyTail (t : List Char) (j : Nat) : Option (Nat × Option Nat) :=
  if isSepD (charAt t j) && digAt t (j+1) && digAt t (j+2) && digAt t (j+3)
      && digAt t (j+4) && !(wordAt t (j+5)) then
    some (j+5, some (dval t (j+1) * 1000 + dval t (j+2) * 100 + dval t (j+3) * 10 + dval t (j+4)))
  else if isSepD (charAt t j) && digAt t (j+1) && digAt t (j+2) && digAt t (j+3)
      && !(wordAt t (j+4)) then
    some (j+4, some (dval t (j+1) * 100 + dval t (j+2) * 10 + dval t (j+3)))
  else if isSepD (charAt t j) && digAt t (j+1) && digAt t (j+2)
      && !(wordAt t (j+3)) then
    some (j+3, some (dval t (j+1) * 10 + dval t (j+2)))
  else if !(wordAt t j) then
    some (j, none)
  else none

/-- The (\d{1,2}) month of _DATE_DMY (greedy, with backtracking into the
one-digit alternative when the tail fails), then the tail.
Returns (month, end, optional year). -/
def dmyMon (t : List Char) (j : Nat) : Option (Nat × Nat × Option Nat) :=
  if digAt t j && digAt t (j+1) then
    match dmyTail t (j+2) with
    | some (e, y) => some (dval t j * 10 + dval t (j+1), e, y)
    | none =>
      match dmyTail t (j+1) with
      | some (e, y) => some (dval t j, e, y)
      | none => none
  else if digAt t j then
    match dmyTail t (j+1) with
    | some (e, y) => some (dval t j, e, y)
    | none => none
  else none

/-- Match of _DATE_DMY (one or two day digits, separator, one or two month digits, optional year tail, all between word boundaries) at position i: greedy day, separator, then month and tail.
Returns (day, month, end, optional year). -/
def dmyCore (t : List Char) (i : Nat) : Option (Nat × Nat × Nat × Option Nat) :=
  if digAt t i && digAt t (i+1) && isSepD (charAt t (i+2)) then
    match dmyMon t (i+3) with
    | some (m, e, y) => some (dval t i * 10 + dval t (i+1), m, e, y)
    | none =>
      if isSepD (charAt t (i+1)) then
        match dmyMon t (i+2) with
        | some (m, e, y) => some (dval t i, m, e, y)
        | none => none
      else none
  else if digAt t i && isSepD (charAt t (i+1)) then
    match dmyMon t (i+2) with
    | some (m, e, y) => some (dval t i, m, e, y)
    | none => none
  else none

def matchDMYAt (t : List Char) (i : Nat) : Option (Nat × Nat × Nat × Option Nat) :=
  if bdryBefore t i then dmyCore t i else none

/-- _DATE_DMY.finditer: all non-overlapping matches, leftmost first,
scanning resumes at the end of each match.
Entries are (start, end, day, month, optional year). -/
def dmyFindFrom (t : List Char) : Nat → Nat → List (Nat × Nat × Nat × Nat × Option Nat)
  | 0, _ => []
  | fuel + 1, i =>
    match matchDMYAt t i with
    | some (d, m, e, y) => (i, e, d, m, y) :: dmyFindFrom t fuel e
    | none => dmyFindFrom t fuel (i + 1)

def dmyFind (t : List Char) : List (Nat × Nat × Nat × Nat × Option Nat) :=
  dmyFindFrom t (t.length + 1) 0

/-! ## booking.py parse_datetime_from_text -/

/-- str.lower for the character ranges the source texts use
(ASCII letters and Cyrillic). -/
def lowerChar (c : Char) : Char :=
  if 'A' ≤ c && c ≤ 'Z' then Char.ofNat (c.toNat + 32)
  else if 0x410 ≤ c.toNat && c.toNat ≤ 0x42F then Char.ofNat (c.toNat + 0x20)
  else if c.toNat == 0x401 then Char.ofNat 0x451
  else c

def isSpaceChar (c : Char) : Bool :=
  c == ' ' || c == '\t' || c == '\n' || c == '\r'

/-- (text or "").lower().strip() as a list of characters. -/
def lowerStrip (s : String) : List Char :=
  (((s.data.map lowerChar).dropWhile isSpaceChar).reverse.dropWhile isSpaceChar).reverse

def isPrefixOfCs : List Char → List Char → Bool
  | [], _ => true
  | _ :: _, [] => false
  | a :: as, b :: bs => a == b && isPrefixOfCs as bs

/-- Python substring containment (the "x in t" test). -/
def containsSub (pat : List Char) : List Char → Bool
  | [] => isPrefixOfCs pat []
  | c :: rest => isPrefixOfCs pat (c :: rest) || containsSub pat rest

def segodnyaCs : List Char := String.data "сегодня"

def zavtraCs : List Char := String.data "завтра"

/-- The validation datetime(y, m, d) performs: raises ValueError outside
these bounds, which the source catches to skip the candidate. -/
def validYMD (y m d : Nat) : Bool :=
  1 ≤ y && y ≤ 9999 && 1 ≤ m && m ≤ 12 && 1 ≤ d && d ≤ daysInMonth y m

/-- The _DATE_DMY loop of parse_datetime_from_text: skip matches that
overlap the span of the already-matched time, resolve a missing year to
the current year and a two-digit year to year + 2000, validate with the
datetime constructor, and return the first surviving candidate. -/
def dmySelect (today : Date) (ts te : Nat) :
    List (Nat × Nat × Nat × Nat × Option Nat) → Option (Nat × Nat × Nat)
  | [] => none
  | (s, e, d, m, yOpt) :: rest =>
    if !(e ≤ ts || te ≤ s) then dmySelect today ts te rest
    else
      let y := match yOpt with
        | some yr => if yr < 100 then yr + 2000 else yr
        | none => today.year
      if validYMD y m d then some (y, m, d) else dmySelect today ts te rest

/-- booking.py parse_datetime_from_text.  The wall clock now_local() is
the parameter now; the function returns (date string or absent, time
string or absent). -/
def parse_datetime_from_text (now : DateTime) (text : String) :
    Option String × Option String :=
  let t := lowerStrip text
  match timeSearch t with
  | none => (none, none)
  | some (ts, te, hh, mm) =>
    let time_str := fmtHM hh mm
    let today := now.date
    if containsSub segodnyaCs t then (some (fmtDate today), some time_str)
    else if containsSub zavtraCs t then (some (fmtDate (nextDay today)), some time_str)
    else
      let dmy : Option (Nat × Nat × Nat) := dmySelect today ts te (dmyFind t)
      match isoSearch t with
      | some (_, y, m, d) =>
        if validYMD y m d then (some (fmtYMD y m d), some time_str)
        else
          match dmy with
          | some (y2, m2, d2) => (some (fmtYMD y2 m2 d2), some time_str)
          | none => (none, some time_str)
      | none =>
        match dmy with
        | some (y2, m2, d2) => (some (fmtYMD y2 m2 d2), some time_str)
        | none => (none, some time_str)

/-! ## booking.py availability, commit and suggestion scan

The Google free/busy query is a parameter fb : FB; fb start end is the
outcome of service.freebusy().query(...).execute() for the window
[start, end): Except.error models the remote call raising
(network/auth/quota), Except.ok busy a successful reply with its busy
interval list.  A Python exception escaping a function is the
Except.error result of the embedded function. -/

def FB : Type := DateTime → DateTime → Except Unit (List (DateTime × DateTime))

namespace Booking

/-- booking.py is_future_slot: start_local > now_local(). -/
def is_future_slot (now start_local : DateTime) : Bool := dtLt now start_local

/-- booking.py is_time_available: returns False without a remote call for
a non-future start, otherwise queries free/busy (whose failure
propagates: there is no try/except around the query) and is True iff the
busy list is empty. -/
def is_time_available (now : DateTime) (fb : FB) (start_local end_local : DateTime) :
    Except Unit Bool :=
  if !(is_future_slot now start_local) then .ok false
  else
    match fb start_local end_local with
    | .error u => .error u
    | .ok busy => .ok (busy.length == 0)

/-- booking.py check_slot_available: parse (ValueError gives False),
future check, then is_time_available over [start, start + duration). -/
def check_slot_available (now : DateTime) (fb : FB) (date_str time_str : String)
    (duration_minutes : Nat) : Except Unit Bool :=
  match strptime2 date_str time_str with
  | none => .ok false
  | some start_local =>
    if !(is_future_slot now start_local) then .ok false
    else is_time_available now fb start_local (addMinutes start_local duration_minutes)

/-- booking.py create_booking.  ins is the htmlLink field of the created
event (created_event.get("htmlLink")); the pair's second component
records whether events().insert was executed.  Python returns None for
an unparsable or past or busy slot, which is the Except.ok none result
here; a free/busy failure propagates as on the availability path. -/
def create_booking (now : DateTime) (fb : FB) (ins : Option String)
    (name phone service_name : String) (date_str time_str : String)
    (duration_minutes : Nat) : Except Unit (Option String) × Bool :=
  match strptime2 date_str time_str with
  | none => (.ok none, false)
  | some start_local =>
    if !(is_future_slot now start_local) then (.ok none, false)
    else
      match is_time_available now fb start_local (addMinutes start_local duration_minutes) with
      | .error u => (.error u, false)
      | .ok false => (.ok none, false)
      | .ok true => (.ok ins, true)

/-- The while loop of suggest_next_free_slots.  The fuel argument only
bounds the recursion; it is chosen large enough that, for a positive
step, the loop condition always fails before the fuel does, so the
function agrees with the source loop. -/
def sugLoop (now : DateTime) (fb : FB) (duration_minutes step_minutes limit : Nat)
    (end_search : DateTime) :
    Nat → DateTime → List (String × String) → Except Unit (List (String × String))
  | 0, _, found => .ok found
  | fuel + 1, cursor, found =>
    if dtLt cursor end_search = true ∧ found.length < limit then
      match check_slot_available now fb (fmtD cursor) (fmtT cursor) duration_minutes with
      | .error u => .error u
      | .ok true =>
        sugLoop now fb duration_minutes step_minutes limit end_search fuel
          (addMinutes cursor step_minutes) (found ++ [(fmtD cursor, fmtT cursor)])
      | .ok false =>
        sugLoop now fb duration_minutes step_minutes limit end_search fuel
          (addMinutes cursor step_minutes) found
    else .ok found

/-- booking.py suggest_next_free_slots: round the start up to the next
step boundary, then scan forward for at most search_hours hours,
collecting up to limit slots that check_slot_available accepts.
start_from_local = None in the source means now; callers pass the
starting instant explicitly here. -/
def suggest_next_free_slots (now : DateTime) (fb : FB) (start_from_local : DateTime)
    (duration_minutes step_minutes limit search_hours : Nat) :
    Except Unit (List (String × String)) :=
  let add := (step_minutes - start_from_local.minute % step_minutes) % step_minutes
  let cursor := addMinutes start_from_local add
  let end_search := addMinutes cursor (search_hours * 60)
  sugLoop now fb duration_minutes step_minutes limit end_search
    (search_hours * 60 + 1) cursor []

end Booking

/-! ## bot.py time helpers, slot suggester and admin callbacks -/

namespace Bot

/-- bot.py is_future_slot(date_str, time_str, grace_minutes): parse the
two strings (any exception gives False), then compare strictly against
now + grace_minutes.  The grace is a keyword parameter of the function,
not a constant. -/
def is_future_slot (now : DateTime) (date_str time_str : String) (grace_minutes : Nat) : Bool :=
  match strptime2 date_str time_str with
  | none => false
  | some dt => dtLt (addMinutes now grace_minutes) dt

/-- bot.py is_time_available: booking.py exposes check_slot_available, so
the wrapper delegates to it with the default duration of 60 minutes. -/
def is_time_available (now : DateTime) (fb : FB) (date_str time_str : String) :
    Except Unit Bool :=
  Booking.check_slot_available now fb date_str time_str 60

/-- Inner while loop of bot.py suggest_slots for one day: while cur < end,
append cur when it is future and available, and return out of the whole
function (flag true) as soon as the limit is reached.  The availability
check uses the wrapper's default duration; suggest_slots never passes
its own duration_minutes on.  Fuel only bounds the recursion and is
chosen so that for a positive step the loop condition fails first. -/
def scanDay (now : DateTime) (fb : FB) (step limit : Nat) (endD : DateTime) :
    Nat → DateTime → List (String × String) → Except Unit (Bool × List (String × String))
  | 0, _, acc => .ok (false, acc)
  | fuel + 1, cur, acc =>
    if dtLt cur endD then
      if is_future_slot now (fmtD cur) (fmtT cur) 0 then
        match is_time_available now fb (fmtD cur) (fmtT cur) with
        | .error u => .error u
        | .ok true =>
          let acc2 := acc ++ [(fmtD cur, fmtT cur)]
          if limit ≤ acc2.length then .ok (true, acc2)
          else scanDay now fb step limit endD fuel (addMinutes cur step) acc2
        | .ok false => scanDay now fb step limit endD fuel (addMinutes cur step) acc
      else scanDay now fb step limit endD fuel (addMinutes cur step) acc
    else .ok (false, acc)

/-- The start cursor bot.py suggest_slots uses for day offset o: on the
first day the hour floor of now plus ((now.minute // step) + 1) * step
minutes, on later days the day's date at work_start_hour:00. -/
def dayStart (now : DateTime) (work_start_hour step : Nat) (o : Nat) : DateTime :=
  if o == 0 then addMinutes (hourFloor now) ((now.minute / step + 1) * step)
  else atTime (addMinutes now (o * 1440)).date work_start_hour

/-- The end bound of the day-o scan: the day's date at work_end_hour:00. -/
def dayEnd (now : DateTime) (work_end_hour : Nat) (o : Nat) : DateTime :=
  atTime (addMinutes now (o * 1440)).date work_end_hour

def dayFuel : Nat := 1441

/-- The for-loop over day offsets 0..days_ahead of bot.py suggest_slots. -/
def scanDays (now : DateTime) (fb : FB) (work_start_hour work_end_hour step limit : Nat) :
    Nat → Nat → List (String × String) → Except Unit (List (String × String))
  | 0, _, acc => .ok acc
  | n + 1, o, acc =>
    match scanDay now fb step limit (dayEnd now work_end_hour o) dayFuel
        (dayStart now work_start_hour step o) acc with
    | .error u => .error u
    | .ok (true, l) => .ok l
    | .ok (false, l) => scanDays now fb work_start_hour work_end_hour step limit n (o + 1) l

/-- bot.py suggest_slots(days_ahead, limit, duration_minutes).  The
working-hours bounds and step come from the WORK_START_HOUR,
WORK_END_HOUR and SLOT_STEP_MIN configuration; duration_minutes is a
parameter of the source function that its body never uses. -/
def suggest_slots (now : DateTime) (fb : FB)
    (work_start_hour work_end_hour step : Nat)
    (days_ahead limit duration_minutes : Nat) :
    Except Unit (List (String × String)) :=
  scanDays now fb work_start_hour work_end_hour step limit (days_ahead + 1) 0 []

/-- PendingRequest statuses (the status field strings of bot.py). -/
inductive ReqStatus
  | PENDING
  | CONFIRMED
  | CANCELLED
deriving DecidableEq, Repr

/-- bot.py PendingRequest. -/
structure PendingRequest where
  req_id : String
  user_id : Nat
  chat_id : Nat
  created_at : String
  service_name : String
  client_name : String
  phone : String
  date_str : String
  time_str : String
  duration_min : Nat
  comment : String
  status : ReqStatus
  confirmed_by : Option Nat
deriving DecidableEq, Repr

/-- bot.py admin_confirm for a request found in PENDING: requests whose
status is not PENDING are left unchanged; a failed future re-check moves
the request to CANCELLED; a busy slot leaves it PENDING; otherwise
create_booking_compat runs (its outcome, including a raised exception,
is the parameter ins) and the request becomes CONFIRMED.  An exception
from the availability re-check or from the create call propagates, and
the request is then left as it was. -/
def admin_confirm (now : DateTime) (fb : FB) (ins : Except Unit (Option String))
    (admin_id : Nat) (req : PendingRequest) : Except Unit PendingRequest :=
  if req.status ≠ ReqStatus.PENDING then .ok req
  else if !(is_future_slot now req.date_str req.time_str 0) then
    .ok { req with status := ReqStatus.CANCELLED, confirmed_by := some admin_id }
  else
    match is_time_available now fb req.date_str req.time_str with
    | .error u => .error u
    | .ok false => .ok req
    | .ok true =>
      match ins with
      | .error u => .error u
      | .ok _ => .ok { req with status := ReqStatus.CONFIRMED, confirmed_by := some admin_id }

/-- bot.py admin_cancel: only a PENDING request transitions, to CANCELLED. -/
def admin_cancel (admin_id : Nat) (req : PendingRequest) : PendingRequest :=
  if req.status ≠ ReqStatus.PENDING then req
  else { req with status := ReqStatus.CANCELLED, confirmed_by := some admin_id }

end Bot

/-- A free/busy oracle whose remote call always fails. -/
def fbErr : FB := fun _ _ => .error ()

/-- A free/busy oracle that always reports an empty busy list. -/
def fbFree : FB := fun _ _ => .ok []

/-! ## Claim C1: availability check under a failing free/busy query -/

/-! ## Claim C2: commit re-checks before inserting -/

/-! ## Claim C3: suggestion scan under a failing oracle -/

/-! ## Claim C10: no time token means no result at all -/

/-! ## Claim C4: day/month-only dates and the year -/

/-! ## Claim C6: is_future_slot with grace -/

/-! ## Claim C7: the extracted time token -/

/-! ## Claim C9: the PENDING / CONFIRMED / CANCELLED state machine -/

/-! ## Claim C8: suggester output size, order and checking -/

/-! ## Claim C5: candidates and the working-hours window -/

/-! ## Properties and claim theorems -/
theorem dateLt_iff (a b : Date) :
    dateLt a b = true ↔
      (a.year < b.year ∨
        (a.year = b.year ∧
          (a.month < b.month ∨ (a.month = b.month ∧ a.day < b.day)))) := by
  cases a; cases b
  simp [dateLt, Bool.or_eq_true, Bool.and_eq_true, decide_eq_true_eq, beq_iff_eq]

theorem dtLt_iff (a b : DateTime) :
    dtLt a b = true ↔
      (dateLt a.date b.date = true ∨
        (a.date = b.date ∧
          (a.hour < b.hour ∨ (a.hour = b.hour ∧ a.minute < b.minute)))) := by
  cases a; cases b
  simp [dtLt, Bool.or_eq_true, Bool.and_eq_true, decide_eq_true_eq, beq_iff_eq]

theorem dateLt_trans {a b c : Date} (h1 : dateLt a b = true)
    (h2 : dateLt b c = true) : dateLt a c = true := by
  cases a; cases b; cases c
  rw [dateLt_iff] at h1 h2 ⊢
  rcases h1 with h1 | ⟨e1, h1⟩ <;> rcases h2 with h2 | ⟨e2, h2⟩ <;>
    simp_all <;> omega

theorem dateLt_irrefl (a : Date) : dateLt a a = false := by
  cases a; simp [dateLt]

theorem dtLt_trans {a b c : DateTime} (h1 : dtLt a b = true)
    (h2 : dtLt b c = true) : dtLt a c = true := by
  rw [dtLt_iff] at h1 h2 ⊢
  rcases h1 with h1 | ⟨e1, h1⟩ <;> rcases h2 with h2 | ⟨e2, h2⟩
  · exact Or.inl (dateLt_trans h1 h2)
  · rw [e2] at h1; exact Or.inl h1
  · rw [e1]; exact Or.inl h2
  · exact Or.inr ⟨e1.trans e2, by omega⟩

theorem dtLt_irrefl (a : DateTime) : dtLt a a = false := by
  cases a with
  | mk d h m => simp [dtLt, dateLt_irrefl]

theorem dateLt_nextDay (d : Date) : dateLt d (nextDay d) = true := by
  cases d with
  | mk y m dd =>
    rw [dateLt_iff]
    unfold nextDay
    by_cases h1 : dd < daysInMonth y m
    · simp [h1]
    · by_cases h2 : m < 12
      · simp [h1, h2]
      · simp [h1, h2]

theorem dateLt_addDaysN (d : Date) (n : Nat) (hn : 0 < n) :
    dateLt d (addDaysN n d) = true := by
  induction n with
  | zero => omega
  | succ k ih =>
    cases Nat.eq_zero_or_pos k with
    | inl h0 => subst h0; exact dateLt_nextDay d
    | inr hk =>
      exact dateLt_trans (ih hk) (dateLt_nextDay (addDaysN k d))

/-- Adding at least one minute to a datetime with in-range minutes strictly
increases it in the lexicographic order. -/
theorem dtLt_addMinutes (dt : DateTime) (k : Nat) (hmi : dt.minute < 60)
    (hk : 0 < k) : dtLt dt (addMinutes dt k) = true := by
  cases dt with
  | mk d h m =>
    rw [dtLt_iff]
    unfold addMinutes
    simp only
    by_cases hd : (h * 60 + m + k) / 1440 = 0
    · rw [hd]
      right
      refine ⟨rfl, ?_⟩
      have h1 : h * 60 + m + k < 1440 := by omega
      have h2 : (h * 60 + m + k) % 1440 = h * 60 + m + k := Nat.mod_eq_of_lt h1
      rw [h2]
      omega
    · left
      exact dateLt_addDaysN d _ (by omega)

/-- Adding a nonnegative number of minutes never decreases a datetime with
in-range minutes. -/
theorem dtLe_addMinutes (dt : DateTime) (k : Nat) (hmi : dt.minute < 60) :
    dtLe dt (addMinutes dt k) = true := by
  cases Nat.eq_zero_or_pos k with
  | inl h0 =>
    subst h0
    cases dt with
    | mk d h m =>
      change m < 60 at hmi
      by_cases hlt : h * 60 + m < 1440
      · have he : addMinutes ⟨d, h, m⟩ 0 = ⟨d, h, m⟩ := by
          unfold addMinutes
          simp only [DateTime.mk.injEq]
          have h1 : h * 60 + m + 0 = h * 60 + m := by omega
          rw [h1]
          have hd : (h * 60 + m) / 1440 = 0 := by omega
          have hm : (h * 60 + m) % 1440 = h * 60 + m := Nat.mod_eq_of_lt hlt
          rw [hd, hm]
          refine ⟨rfl, ?_, ?_⟩ <;> omega
        rw [he]
        unfold dtLe
        simp
      · unfold dtLe
        rw [Bool.or_eq_true]
        left
        rw [dtLt_iff]
        left
        unfold addMinutes
        simp only
        have hpos : 0 < (h * 60 + m + 0) / 1440 := by
          have h1 : h * 60 + m + 0 = h * 60 + m := by omega
          rw [h1]
          exact Nat.div_pos (by omega) (by omega)
        exact dateLt_addDaysN d _ hpos
  | inr hk =>
    unfold dtLe
    rw [Bool.or_eq_true]
    exact Or.inl (dtLt_addMinutes dt k hmi hk)

theorem dtLt_of_dtLe_of_dtLt {a b c : DateTime} (h1 : dtLe a b = true)
    (h2 : dtLt b c = true) : dtLt a c = true := by
  unfold dtLe at h1
  rw [Bool.or_eq_true] at h1
  rcases h1 with h1 | h1
  · exact dtLt_trans h1 h2
  · rw [beq_iff_eq] at h1; rw [h1]; exact h2

theorem dtLe_of_dtLt {a b : DateTime} (h : dtLt a b = true) : dtLe a b = true := by
  unfold dtLe; rw [Bool.or_eq_true]; exact Or.inl h

theorem dtLe_trans {a b c : DateTime} (h1 : dtLe a b = true)
    (h2 : dtLe b c = true) : dtLe a c = true := by
  unfold dtLe at h1 h2 ⊢
  rw [Bool.or_eq_true] at h1 h2 ⊢
  rcases h1 with h1 | h1
  · rcases h2 with h2 | h2
    · exact Or.inl (dtLt_trans h1 h2)
    · rw [beq_iff_eq] at h2; rw [← h2]; exact Or.inl h1
  · rw [beq_iff_eq] at h1; rw [h1]; rcases h2 with h2 | h2
    · exact Or.inl h2
    · exact Or.inr h2

theorem digitChar_isDigit : ∀ n, n < 10 → (digitChar n).isDigit = true := by decide

theorem digitVal_digitChar : ∀ n, n < 10 → digitVal (digitChar n) = n := by decide

theorem digitVal_le_of_isDigit (c : Char) (h : c.isDigit = true) : digitVal c ≤ 9 := by
  simp [Char.isDigit] at h
  have h2 : c.val.toNat ≤ 57 := UInt32.toNat_le_of_le (by decide) h.2
  unfold digitVal Char.toNat
  omega

theorem daysInMonth_le_31 (y m : Nat) : daysInMonth y m ≤ 31 := by
  unfold daysInMonth
  split
  · split <;> omega
  · split <;> omega

theorem parseTok_pad2 (lo2 hi2 lo1 n : Nat) (rest : List Char) (hn : n < 100)
    (h1 : lo2 ≤ n) (h2 : n ≤ hi2) :
    parseTok lo2 hi2 lo1 (pad2 n ++ rest) = some (n, rest) := by
  have ha : (digitChar (n / 10 % 10)).isDigit = true := digitChar_isDigit _ (by omega)
  have hb : (digitChar (n % 10)).isDigit = true := digitChar_isDigit _ (by omega)
  have hva : digitVal (digitChar (n / 10 % 10)) = n / 10 % 10 := digitVal_digitChar _ (by omega)
  have hvb : digitVal (digitChar (n % 10)) = n % 10 := digitVal_digitChar _ (by omega)
  have hv : n / 10 % 10 * 10 + n % 10 = n := by omega
  simp only [pad2, List.cons_append, List.nil_append, parseTok, ha, hb, hva, hvb,
    Bool.and_self, if_true, hv]
  simp [h1, h2]

theorem parseDateCs_fmt (y m d : Nat) (hy1 : 1 ≤ y) (hy2 : y ≤ 9999)
    (hm1 : 1 ≤ m) (hm2 : m ≤ 12) (hd1 : 1 ≤ d) (hd2 : d ≤ daysInMonth y m) :
    parseDateCs (pad4 y ++ '-' :: pad2 m ++ '-' :: pad2 d) = some ⟨y, m, d⟩ := by
  have ha : (digitChar (y / 1000 % 10)).isDigit = true := digitChar_isDigit _ (by omega)
  have hb : (digitChar (y / 100 % 10)).isDigit = true := digitChar_isDigit _ (by omega)
  have hc : (digitChar (y / 10 % 10)).isDigit = true := digitChar_isDigit _ (by omega)
  have hdd : (digitChar (y % 10)).isDigit = true := digitChar_isDigit _ (by omega)
  have hva : digitVal (digitChar (y / 1000 % 10)) = y / 1000 % 10 := digitVal_digitChar _ (by omega)
  have hvb : digitVal (digitChar (y / 100 % 10)) = y / 100 % 10 := digitVal_digitChar _ (by omega)
  have hvc : digitVal (digitChar (y / 10 % 10)) = y / 10 % 10 := digitVal_digitChar _ (by omega)
  have hvd : digitVal (digitChar (y % 10)) = y % 10 := digitVal_digitChar _ (by omega)
  have hy : y / 1000 % 10 * 1000 + y / 100 % 10 * 100 + y / 10 % 10 * 10 + y % 10 = y := by
    omega
  have hmtok : parseTok 1 12 1 (pad2 m ++ '-' :: pad2 d) = some (m, '-' :: pad2 d) :=
    parseTok_pad2 1 12 1 m _ (by omega) hm1 hm2
  have hdtok : parseTok 1 31 1 (pad2 d ++ ([] : List Char)) = some (d, []) :=
    parseTok_pad2 1 31 1 d [] (by have := daysInMonth_le_31 y m; omega) hd1
      (by have := daysInMonth_le_31 y m; omega)
  rw [List.append_nil] at hdtok
  simp only [pad4, List.cons_append, List.nil_append, parseDateCs, ha, hb, hc, hdd,
    Bool.and_self, if_true, hva, hvb, hvc, hvd, hy, hmtok, hdtok]
  simp [hy1, hd2]

theorem parseTimeCs_fmt (h mi : Nat) (hh : h ≤ 23) (hmi : mi ≤ 59) :
    parseTimeCs (pad2 h ++ ':' :: pad2 mi) = some (h, mi) := by
  have htok : parseTok 0 23 0 (pad2 h ++ ':' :: pad2 mi) = some (h, ':' :: pad2 mi) :=
    parseTok_pad2 0 23 0 h _ (by omega) (by omega) hh
  have htok2 : parseTok 0 59 0 (pad2 mi ++ ([] : List Char)) = some (mi, []) :=
    parseTok_pad2 0 59 0 mi [] (by omega) (by omega) hmi
  rw [List.append_nil] at htok2
  simp only [parseTimeCs, htok, htok2]

/-- The strings the source produces with strftime parse back to the same
datetime with strptime: the internal string round trip of the pipeline
is the identity on valid datetimes. -/
theorem strptime2_fmt (dt : DateTime) (h : validDT dt = true) :
    strptime2 (fmtD dt) (fmtT dt) = some dt := by
  cases dt with
  | mk d hh mm =>
    cases d with
    | mk y mo dd =>
      simp only [validDT, validDate, Bool.and_eq_true, decide_eq_true_eq, and_assoc] at h
      obtain ⟨hy1, hy2, hm1, hm2, hd1, hd2, hhh, hmm⟩ := h
      unfold strptime2 fmtD fmtT fmtDate fmtHM
      have hdate := parseDateCs_fmt y mo dd hy1 hy2 hm1 hm2 hd1 hd2
      have htime := parseTimeCs_fmt hh mm hhh hmm
      simp only [String.data]
      rw [hdate, htime]

/-- Claim C1, counterexample: with a future slot and a free/busy query
that raises, booking.py is_time_available does not return false; the
failure escapes to the caller (there is no try/except around the remote
call), so the claim that the check returns false and never propagates
the failure is false at this input. -/
theorem claim1_counterexample :
    Booking.is_time_available ⟨⟨2026, 1, 5⟩, 10, 7⟩ fbErr
      ⟨⟨2026, 1, 5⟩, 11, 0⟩ ⟨⟨2026, 1, 5⟩, 12, 0⟩ = Except.error () := rfl

/-- Claim C1 as amended: when the free/busy query fails, is_time_available
propagates the failure for a strictly future start; it returns false
without consulting the remote calendar only when the start is not
strictly future. -/
theorem claim1_amended (now s e : DateTime) (fb : FB) (u : Unit)
    (h : fb s e = Except.error u) :
    Booking.is_time_available now fb s e =
      (if Booking.is_future_slot now s then Except.error u else Except.ok false) := by
  unfold Booking.is_time_available
  by_cases hf : Booking.is_future_slot now s = true
  · simp [hf, h]
  · rw [Bool.not_eq_true] at hf
    simp [hf]

/-- Claim C1 witness. -/
theorem claim1_witness :
    Booking.is_time_available ⟨⟨2026, 1, 5⟩, 10, 7⟩ fbErr
        ⟨⟨2026, 1, 5⟩, 9, 0⟩ ⟨⟨2026, 1, 5⟩, 10, 0⟩ =
      (if Booking.is_future_slot ⟨⟨2026, 1, 5⟩, 10, 7⟩ ⟨⟨2026, 1, 5⟩, 9, 0⟩ then
        Except.error () else Except.ok false) :=
  claim1_amended ⟨⟨2026, 1, 5⟩, 10, 7⟩ ⟨⟨2026, 1, 5⟩, 9, 0⟩ ⟨⟨2026, 1, 5⟩, 10, 0⟩ fbErr () rfl

/-- Claim C2: create_booking re-checks future-ness and availability right
before the insert; whenever either re-check fails it performs no insert
and returns the explicit unavailable value (Python None, here Except.ok
none), not an exception; and conversely an executed insert implies both
re-checks passed. -/
theorem claim2_theorem (now : DateTime) (fb : FB) (ins : Option String)
    (name phone service_name date_str time_str : String) (dur : Nat)
    (start_local : DateTime)
    (hp : strptime2 date_str time_str = some start_local) :
    ((Booking.is_future_slot now start_local = false ∨
        Booking.is_time_available now fb start_local (addMinutes start_local dur) =
          Except.ok false) →
      Booking.create_booking now fb ins name phone service_name date_str time_str dur =
        (Except.ok none, false)) ∧
    ((Booking.create_booking now fb ins name phone service_name date_str time_str dur).2 =
        true →
      Booking.is_future_slot now start_local = true ∧
      Booking.is_time_available now fb start_local (addMinutes start_local dur) =
        Except.ok true) := by
  unfold Booking.create_booking
  rw [hp]
  constructor
  · intro h
    rcases h with h | h
    · simp [h]
    · by_cases hf : Booking.is_future_slot now start_local = true
      · simp [hf, h]
      · rw [Bool.not_eq_true] at hf
        simp [hf]
  · intro h
    by_cases hf : Booking.is_future_slot now start_local = true
    · refine ⟨hf, ?_⟩
      simp only [hf, Bool.not_true, Bool.false_eq_true, if_false] at h
      cases hav : Booking.is_time_available now fb start_local (addMinutes start_local dur) with
      | error u => rw [hav] at h; simp at h
      | ok b =>
        cases b with
        | false => rw [hav] at h; simp at h
        | true => rfl
    · rw [Bool.not_eq_true] at hf
      simp [hf] at h

/-- Claim C2 witness: a slot that is already past at commit time produces
the unavailable result and no insert. -/
theorem claim2_witness :
    Booking.create_booking ⟨⟨2026, 1, 5⟩, 10, 7⟩ fbFree (some "LINK")
      "nm" "ph" "sv" "2026-01-05" "09:00" 60 = (Except.ok none, false) :=
  (claim2_theorem ⟨⟨2026, 1, 5⟩, 10, 7⟩ fbFree (some "LINK") "nm" "ph" "sv"
    "2026-01-05" "09:00" 60 ⟨⟨2026, 1, 5⟩, 9, 0⟩ rfl).1 (Or.inl rfl)

/-- With a free/busy query that always fails, check_slot_available either
propagates the failure or rejects the slot; it never accepts. -/
theorem check_slot_available_err (now : DateTime) (fb : FB) (ds ts : String)
    (dur : Nat) (hfb : ∀ s e, fb s e = Except.error ()) :
    Booking.check_slot_available now fb ds ts dur = Except.error () ∨
    Booking.check_slot_available now fb ds ts dur = Except.ok false := by
  unfold Booking.check_slot_available Booking.is_time_available
  cases hp : strptime2 ds ts with
  | none => right; rfl
  | some start_local =>
    by_cases hf : Booking.is_future_slot now start_local = true
    · simp only [hf, Bool.not_true, Bool.false_eq_true, if_false]
      rw [hfb]
      left; rfl
    · rw [Bool.not_eq_true] at hf
      simp [hf]

/-- The suggestion loop with an always-failing oracle and an empty
accumulator either propagates the failure or finishes empty. -/
theorem sugLoop_err (now : DateTime) (fb : FB) (dur step limit : Nat)
    (endS : DateTime) (hfb : ∀ s e, fb s e = Except.error ()) :
    ∀ fuel cursor,
      Booking.sugLoop now fb dur step limit endS fuel cursor [] = Except.error () ∨
      Booking.sugLoop now fb dur step limit endS fuel cursor [] = Except.ok [] := by
  intro fuel
  induction fuel with
  | zero => intro cursor; right; rfl
  | succ f ih =>
    intro cursor
    unfold Booking.sugLoop
    simp only [List.length_nil]
    by_cases hc : (dtLt cursor endS = true ∧ 0 < limit)
    · rw [if_pos hc]
      rcases check_slot_available_err now fb (fmtD cursor) (fmtT cursor) dur hfb with h | h
      · rw [h]; left; rfl
      · rw [h]; exact ih (addMinutes cursor step)
    · rw [if_neg hc]
      right; rfl

/-- Claim C3, counterexample: with a failing oracle and a strictly future
first candidate, booking.py suggest_next_free_slots does not return the
(empty) list collected so far; the failure escapes as an exception, so
the claim that the scan terminates early and returns a partial list is
false at this input. -/
theorem claim3_counterexample :
    Booking.suggest_next_free_slots ⟨⟨2026, 1, 5⟩, 10, 7⟩ fbErr
      ⟨⟨2026, 1, 5⟩, 10, 7⟩ 60 30 5 72 = Except.error () := rfl

/-- Claim C3 as amended: when the oracle fails, the failure propagates to
the caller of suggest_next_free_slots as an exception; the scan never
returns a nonempty partial list under a failing oracle — the only
non-exceptional outcome is the empty list (reached when no scanned slot
is strictly future, so the oracle is never consulted). -/
theorem claim3_amended (now start_from : DateTime) (fb : FB)
    (dur step limit search_hours : Nat)
    (hfb : ∀ s e, fb s e = Except.error ()) :
    Booking.suggest_next_free_slots now fb start_from dur step limit search_hours =
        Except.error () ∨
    Booking.suggest_next_free_slots now fb start_from dur step limit search_hours =
        Except.ok [] := by
  unfold Booking.suggest_next_free_slots
  exact sugLoop_err now fb dur step limit _ hfb _ _

/-- Claim C3 witness. -/
theorem claim3_witness :
    Booking.suggest_next_free_slots ⟨⟨2026, 1, 5⟩, 10, 7⟩ fbErr
        ⟨⟨2026, 1, 5⟩, 10, 7⟩ 60 30 5 72 = Except.error () ∨
    Booking.suggest_next_free_slots ⟨⟨2026, 1, 5⟩, 10, 7⟩ fbErr
        ⟨⟨2026, 1, 5⟩, 10, 7⟩ 60 30 5 72 = Except.ok [] :=
  claim3_amended ⟨⟨2026, 1, 5⟩, 10, 7⟩ ⟨⟨2026, 1, 5⟩, 10, 7⟩ fbErr 60 30 5 72
    (fun _ _ => rfl)

/-- Claim C10: when the text contains no match of the _TIME_HM pattern,
parse_datetime_from_text returns (None, None), even if the text contains
a recognizable date; a date is never returned without a time. -/
theorem claim10_theorem (now : DateTime) (text : String)
    (h : timeSearch (lowerStrip text) = none) :
    parse_datetime_from_text now text = (none, none) := by
  unfold parse_datetime_from_text
  simp only [h]

/-- Claim C10 witness: a text containing an ISO date but no time. -/
theorem claim10_witness :
    timeSearch (lowerStrip "запись на 2026-01-15") = none ∧
    parse_datetime_from_text ⟨⟨2026, 6, 15⟩, 12, 0⟩ "запись на 2026-01-15" =
      (none, none) :=
  ⟨rfl, claim10_theorem ⟨⟨2026, 6, 15⟩, 12, 0⟩ "запись на 2026-01-15" rfl⟩

/-- Claim C4, counterexample: with the wall clock at 2026-06-15, the
day/month-only input resolves to 2026-01-05, which is strictly before
today; the parser keeps the current year instead of advancing to 2027,
so the claimed next-year bump is false at this input. -/
theorem claim4_counterexample :
    parse_datetime_from_text ⟨⟨2026, 6, 15⟩, 12, 0⟩ "10:00 05.01" =
        (some "2026-01-05", some "10:00") ∧
    dateLt ⟨2026, 1, 5⟩ ⟨2026, 6, 15⟩ = true :=
  ⟨rfl, rfl⟩

/-- Claim C4 as amended: a parsed day/month-only numeric date always gets
the current year, even when that day/month in the current year falls
strictly before today; no branch of the parser advances the year. -/
theorem claim4_amended (now : DateTime) (text : String)
    (ts te hh mm s e d m : Nat) (rest : List (Nat × Nat × Nat × Nat × Option Nat))
    (h1 : timeSearch (lowerStrip text) = some (ts, te, hh, mm))
    (h2 : containsSub segodnyaCs (lowerStrip text) = false)
    (h3 : containsSub zavtraCs (lowerStrip text) = false)
    (h4 : isoSearch (lowerStrip text) = none)
    (h5 : dmyFind (lowerStrip text) = (s, e, d, m, none) :: rest)
    (h6 : e ≤ ts ∨ te ≤ s)
    (h7 : validYMD now.date.year m d = true)
    (h8 : dateLt ⟨now.date.year, m, d⟩ now.date = true) :
    parse_datetime_from_text now text =
      (some (fmtYMD now.date.year m d), some (fmtHM hh mm)) := by
  have hsel : dmySelect now.date ts te ((s, e, d, m, none) :: rest) =
      some (now.date.year, m, d) := by
    have h6b : (e ≤ ts || te ≤ s) = true := by
      rw [Bool.or_eq_true, decide_eq_true_eq, decide_eq_true_eq]
      exact h6
    have step : dmySelect now.date ts te ((s, e, d, m, none) :: rest) =
        (if !(e ≤ ts || te ≤ s) then dmySelect now.date ts te rest
         else if validYMD now.date.year m d then some (now.date.year, m, d)
         else dmySelect now.date ts te rest) := rfl
    rw [step, h6b]
    simp only [Bool.not_true, Bool.false_eq_true, if_false, h7, if_true]
  unfold parse_datetime_from_text
  simp only [h1]
  simp only [h2, Bool.false_eq_true, if_false]
  simp only [h3, Bool.false_eq_true, if_false]
  simp only [h4, h5, hsel]

/-- Claim C4 witness: the concrete inputs of the counterexample satisfy
every hypothesis of the amended claim. -/
theorem claim4_witness :
    parse_datetime_from_text ⟨⟨2026, 6, 15⟩, 12, 0⟩ "10:00 05.01" =
      (some (fmtYMD 2026 1 5), some (fmtHM 10 0)) :=
  claim4_amended ⟨⟨2026, 6, 15⟩, 12, 0⟩ "10:00 05.01" 0 5 10 0 6 11 5 1 []
    rfl rfl rfl rfl rfl (Or.inr (by omega)) rfl rfl

/-- Claim C6: for a valid instant presented the way the source presents
instants to is_future_slot (its canonical date and time strings),
is_future_slot(date, time, grace) is true exactly when the instant is
strictly later than now + grace minutes, and it is false for the instant
equal to now; the grace is a parameter of the function, quantified here. -/
theorem claim6_theorem (now dt : DateTime) (grace : Nat)
    (hnow : validDT now = true) (hdt : validDT dt = true) :
    (Bot.is_future_slot now (fmtD dt) (fmtT dt) grace = true ↔
      dtLt (addMinutes now grace) dt = true) ∧
    Bot.is_future_slot now (fmtD now) (fmtT now) grace = false := by
  have hmi : now.minute < 60 := by
    simp only [validDT, Bool.and_eq_true, decide_eq_true_eq] at hnow
    omega
  constructor
  · unfold Bot.is_future_slot
    rw [strptime2_fmt dt hdt]
  · unfold Bot.is_future_slot
    rw [strptime2_fmt now hnow]
    by_cases hc : dtLt (addMinutes now grace) now = true
    · have habs := dtLt_of_dtLe_of_dtLt (dtLe_addMinutes now grace hmi) hc
      rw [dtLt_irrefl] at habs
      exact absurd habs (by simp)
    · rw [Bool.not_eq_true] at hc
      exact hc

/-- Claim C6 witness. -/
theorem claim6_witness :
    (Bot.is_future_slot ⟨⟨2026, 1, 5⟩, 10, 7⟩ (fmtD ⟨⟨2026, 1, 5⟩, 10, 13⟩)
        (fmtT ⟨⟨2026, 1, 5⟩, 10, 13⟩) 5 = true ↔
      dtLt (addMinutes ⟨⟨2026, 1, 5⟩, 10, 7⟩ 5) ⟨⟨2026, 1, 5⟩, 10, 13⟩ = true) ∧
    Bot.is_future_slot ⟨⟨2026, 1, 5⟩, 10, 7⟩ (fmtD ⟨⟨2026, 1, 5⟩, 10, 7⟩)
      (fmtT ⟨⟨2026, 1, 5⟩, 10, 7⟩) 5 = false :=
  claim6_theorem ⟨⟨2026, 1, 5⟩, 10, 7⟩ ⟨⟨2026, 1, 5⟩, 10, 13⟩ 5 rfl rfl

/-- The time search returns a match of the pattern at its reported start,
at or after the scan origin, and no position before it matches. -/
theorem timeSearchFrom_spec (t : List Char) :
    ∀ fuel i0 s e hh mm, timeSearchFrom t fuel i0 = some (s, e, hh, mm) →
      matchTimeAt t s = some (e, hh, mm) ∧ i0 ≤ s ∧
        ∀ j, i0 ≤ j → j < s → matchTimeAt t j = none := by
  intro fuel
  induction fuel with
  | zero =>
    intro i0 s e hh mm h
    exact absurd h (by simp [timeSearchFrom])
  | succ f ih =>
    intro i0 s e hh mm h
    unfold timeSearchFrom at h
    cases hm : matchTimeAt t i0 with
    | some r =>
      obtain ⟨r1, r2, r3⟩ := r
      rw [hm] at h
      simp only [Option.some.injEq, Prod.mk.injEq] at h
      obtain ⟨hs, he, hhh, hmm⟩ := h
      subst hs; subst he; subst hhh; subst hmm
      exact ⟨hm, Nat.le_refl _, fun j hj1 hj2 => absurd (Nat.lt_of_le_of_lt hj1 hj2)
        (Nat.lt_irrefl _)⟩
    | none =>
      rw [hm] at h
      obtain ⟨h1, h2, h3⟩ := ih (i0 + 1) s e hh mm h
      refine ⟨h1, by omega, fun j hj1 hj2 => ?_⟩
      by_cases hji : j = i0
      · rw [hji]; exact hm
      · exact h3 j (by omega) hj2

/-- Any match of the _TIME_HM pattern has hour at most 23 and minute at
most 99 (the minute group is any two digits). -/
theorem timeCore_bounds (t : List Char) (i e hh mm : Nat)
    (h : timeCore t i = some (e, hh, mm)) : hh ≤ 23 ∧ mm ≤ 99 := by
  unfold timeCore at h
  split at h
  case isTrue hc =>
    simp only [Bool.and_eq_true, Bool.or_eq_true, beq_iff_eq] at hc
    obtain ⟨⟨⟨⟨⟨hc1, hc2⟩, hc3⟩, hc4⟩, hc5⟩, hc6⟩ := hc
    simp only [Option.some.injEq, Prod.mk.injEq] at h
    obtain ⟨he, hhh, hmm⟩ := h
    subst hhh; subst hmm
    have h2 : digitVal (charAt t (i+1)) ≤ 9 := digitVal_le_of_isDigit _ hc2
    have h3 : digitVal (charAt t (i+3)) ≤ 9 := digitVal_le_of_isDigit _ hc4
    have h4 : digitVal (charAt t (i+4)) ≤ 9 := digitVal_le_of_isDigit _ hc5
    have h1 : digitVal (charAt t i) ≤ 1 := by
      rcases hc1 with hc1 | hc1 <;> rw [hc1] <;> decide
    unfold dval
    omega
  case isFalse =>
    split at h
    case isTrue hc =>
      simp only [Bool.and_eq_true] at hc
      obtain ⟨⟨⟨⟨hc1, hc2⟩, hc3⟩, hc4⟩, hc5⟩ := hc
      simp only [Option.some.injEq, Prod.mk.injEq] at h
      obtain ⟨he, hhh, hmm⟩ := h
      subst hhh; subst hmm
      have h1 : digitVal (charAt t i) ≤ 9 := digitVal_le_of_isDigit _ hc1
      have h3 : digitVal (charAt t (i+2)) ≤ 9 := digitVal_le_of_isDigit _ hc3
      have h4 : digitVal (charAt t (i+3)) ≤ 9 := digitVal_le_of_isDigit _ hc4
      unfold dval
      omega
    case isFalse =>
      split at h
      case isTrue hc =>
        simp only [Bool.and_eq_true, Bool.or_eq_true, beq_iff_eq] at hc
        obtain ⟨⟨⟨⟨⟨hc1, hc2⟩, hc3⟩, hc4⟩, hc5⟩, hc6⟩ := hc
        simp only [Option.some.injEq, Prod.mk.injEq] at h
        obtain ⟨he, hhh, hmm⟩ := h
        subst hhh; subst hmm
        have h3 : digitVal (charAt t (i+3)) ≤ 9 := digitVal_le_of_isDigit _ hc4
        have h4 : digitVal (charAt t (i+4)) ≤ 9 := digitVal_le_of_isDigit _ hc5
        have h1 : digitVal (charAt t (i+1)) ≤ 3 := by
          rcases hc2 with ((hc2 | hc2) | hc2) | hc2 <;> rw [hc2] <;> decide
        unfold dval
        omega
      case isFalse => exact absurd h (by simp)

/-- Claim C7, counterexample: the minute group of _TIME_HM accepts any
two digits, so "10:75" is returned as the parsed time even though its
minute exceeds 59, falsifying the claimed minute range. -/
theorem claim7_counterexample :
    parse_datetime_from_text ⟨⟨2026, 6, 15⟩, 12, 0⟩ "сегодня 10:75" =
        (some "2026-06-15", some "10:75") ∧ 59 < 75 :=
  ⟨rfl, by omega⟩

/-- Claim C7 as amended: the parsed time is taken from the leftmost match
of the time pattern; its hour is in 0..23, but its minute is only
constrained to two digits (0..99), and the parser returns that time even
when the minute exceeds 59. -/
theorem claim7_amended (now : DateTime) (text : String) (s e hh mm : Nat)
    (h : timeSearch (lowerStrip text) = some (s, e, hh, mm)) :
    hh ≤ 23 ∧ mm ≤ 99 ∧
    (∀ j, j < s → matchTimeAt (lowerStrip text) j = none) ∧
    (parse_datetime_from_text now text).2 = some (fmtHM hh mm) := by
  obtain ⟨hma, hge, hleft⟩ := timeSearchFrom_spec (lowerStrip text) _ 0 s e hh mm h
  have hcore : timeCore (lowerStrip text) s = some (e, hh, mm) := by
    unfold matchTimeAt at hma
    split at hma
    · exact hma
    · exact absurd hma (by simp)
  obtain ⟨hb1, hb2⟩ := timeCore_bounds _ _ _ _ _ hcore
  refine ⟨hb1, hb2, fun j hj => hleft j (by omega) hj, ?_⟩
  unfold parse_datetime_from_text
  simp only [h]
  by_cases hseg : containsSub segodnyaCs (lowerStrip text) = true
  · simp only [hseg, if_true]
  · rw [Bool.not_eq_true] at hseg
    simp only [hseg, Bool.false_eq_true, if_false]
    by_cases hzav : containsSub zavtraCs (lowerStrip text) = true
    · simp only [hzav, if_true]
    · rw [Bool.not_eq_true] at hzav
      simp only [hzav, Bool.false_eq_true, if_false]
      cases hiso : isoSearch (lowerStrip text) with
      | some r =>
        obtain ⟨e2, y2, m2, d2⟩ := r
        simp only [hiso]
        by_cases hv : validYMD y2 m2 d2 = true
        · simp only [hv, if_true]
        · rw [Bool.not_eq_true] at hv
          simp only [hv, Bool.false_eq_true, if_false]
          cases hsel : dmySelect now.date s e (dmyFind (lowerStrip text)) with
          | some r3 =>
            obtain ⟨y3, m3, d3⟩ := r3
            simp only [hsel]
          | none => simp only [hsel]
      | none =>
        simp only [hiso]
        cases hsel : dmySelect now.date s e (dmyFind (lowerStrip text)) with
        | some r3 =>
          obtain ⟨y3, m3, d3⟩ := r3
          simp only [hsel]
        | none => simp only [hsel]

/-- Claim C7 witness. -/
theorem claim7_witness :
    10 ≤ 23 ∧ 75 ≤ 99 ∧
    (∀ j, j < 8 → matchTimeAt (lowerStrip "сегодня 10:75") j = none) ∧
    (parse_datetime_from_text ⟨⟨2026, 6, 15⟩, 12, 0⟩ "сегодня 10:75").2 =
      some (fmtHM 10 75) :=
  claim7_amended ⟨⟨2026, 6, 15⟩, 12, 0⟩ "сегодня 10:75" 8 13 10 75 rfl

/-- Claim C9: admin_confirm and admin_cancel change only a PENDING
request (CONFIRMED and CANCELLED are final: later calls return the
request unchanged); a PENDING request becomes CONFIRMED only when both
the future re-check and the availability re-check pass; and cancel moves
a PENDING request to CANCELLED. -/
theorem claim9_theorem (now : DateTime) (fb : FB) (ins : Except Unit (Option String))
    (aid : Nat) (req req2 : Bot.PendingRequest) :
    (req.status ≠ Bot.ReqStatus.PENDING →
      Bot.admin_confirm now fb ins aid req = Except.ok req ∧
      Bot.admin_cancel aid req = req) ∧
    (req.status = Bot.ReqStatus.PENDING →
      Bot.admin_confirm now fb ins aid req = Except.ok req2 →
      req2.status = Bot.ReqStatus.CONFIRMED →
      Bot.is_future_slot now req.date_str req.time_str 0 = true ∧
      Bot.is_time_available now fb req.date_str req.time_str = Except.ok true) ∧
    (req.status = Bot.ReqStatus.PENDING →
      Bot.admin_cancel aid req =
        { req with status := Bot.ReqStatus.CANCELLED, confirmed_by := some aid }) := by
  refine ⟨?_, ?_, ?_⟩
  · intro hne
    unfold Bot.admin_confirm Bot.admin_cancel
    rw [if_pos hne, if_pos hne]
    exact ⟨rfl, rfl⟩
  · intro hp hc hs
    unfold Bot.admin_confirm at hc
    have hne : ¬(req.status ≠ Bot.ReqStatus.PENDING) := by
      rw [hp]; simp
    rw [if_neg hne] at hc
    by_cases hf : Bot.is_future_slot now req.date_str req.time_str 0 = true
    · refine ⟨hf, ?_⟩
      simp only [hf, Bool.not_true, Bool.false_eq_true, if_false] at hc
      cases hav : Bot.is_time_available now fb req.date_str req.time_str with
      | error u =>
        rw [hav] at hc
        exact absurd hc (by simp)
      | ok b =>
        cases b with
        | false =>
          rw [hav] at hc
          simp only [Except.ok.injEq] at hc
          rw [← hc] at hs
          rw [hp] at hs
          exact absurd hs (by simp)
        | true =>
          rfl
    · rw [Bool.not_eq_true] at hf
      simp only [hf, Bool.not_false, if_true] at hc
      simp only [Except.ok.injEq] at hc
      rw [← hc] at hs
      exact absurd hs (by simp)
  · intro hp
    unfold Bot.admin_cancel
    rw [if_neg (by rw [hp]; simp)]

/-- Claim C9 witness: a CONFIRMED request is left unchanged by both
calls (terminal state, no re-entry). -/
theorem claim9_witness :
    Bot.admin_confirm ⟨⟨2026, 1, 5⟩, 10, 0⟩ fbFree (Except.ok (some "L")) 7
        ⟨"id", 1, 2, "c", "s", "n", "p", "2026-01-05", "11:00", 60, "",
          Bot.ReqStatus.CONFIRMED, none⟩ =
      Except.ok ⟨"id", 1, 2, "c", "s", "n", "p", "2026-01-05", "11:00", 60, "",
        Bot.ReqStatus.CONFIRMED, none⟩ ∧
    Bot.admin_cancel 7
        ⟨"id", 1, 2, "c", "s", "n", "p", "2026-01-05", "11:00", 60, "",
          Bot.ReqStatus.CONFIRMED, none⟩ =
      ⟨"id", 1, 2, "c", "s", "n", "p", "2026-01-05", "11:00", 60, "",
        Bot.ReqStatus.CONFIRMED, none⟩ :=
  (claim9_theorem ⟨⟨2026, 1, 5⟩, 10, 0⟩ fbFree (Except.ok (some "L")) 7
    ⟨"id", 1, 2, "c", "s", "n", "p", "2026-01-05", "11:00", 60, "",
      Bot.ReqStatus.CONFIRMED, none⟩
    ⟨"id", 1, 2, "c", "s", "n", "p", "2026-01-05", "11:00", 60, "",
      Bot.ReqStatus.CONFIRMED, none⟩).1 (by decide)

/-! ## Supporting lemmas for the suggest_slots scan (claims C5 and C8) -/

theorem dtLe_refl (a : DateTime) : dtLe a a = true := by
  unfold dtLe
  simp

theorem dtLt_of_dtLt_of_dtLe {a b c : DateTime} (h1 : dtLt a b = true)
    (h2 : dtLe b c = true) : dtLt a c = true := by
  unfold dtLe at h2
  rw [Bool.or_eq_true] at h2
  rcases h2 with h2 | h2
  · exact dtLt_trans h1 h2
  · rw [beq_iff_eq] at h2; rw [← h2]; exact h1

theorem addMinutes_minute_lt (dt : DateTime) (k : Nat) :
    (addMinutes dt k).minute < 60 := by
  unfold addMinutes
  exact Nat.mod_lt _ (by omega)

/-- Adding whole days to a valid datetime advances the date and keeps the
clock time, as Python timedelta(days=o) does. -/
theorem addMinutes_day_mult (now : DateTime) (h : validDT now = true) (o : Nat) :
    addMinutes now (o * 1440) = ⟨addDaysN o now.date, now.hour, now.minute⟩ := by
  simp only [validDT, Bool.and_eq_true, decide_eq_true_eq] at h
  obtain ⟨⟨hd, hh⟩, hm⟩ := h
  unfold addMinutes
  simp only [DateTime.mk.injEq]
  have h1 : now.hour * 60 + now.minute + o * 1440 = (now.hour * 60 + now.minute) + o * 1440 := by
    omega
  have hlt : now.hour * 60 + now.minute < 1440 := by omega
  have hdiv : (now.hour * 60 + now.minute + o * 1440) / 1440 = o := by
    rw [h1, Nat.add_mul_div_right _ _ (by omega : (0:Nat) < 1440), Nat.div_eq_of_lt hlt]
    omega
  have hmod : (now.hour * 60 + now.minute + o * 1440) % 1440 = now.hour * 60 + now.minute := by
    rw [h1, Nat.add_mul_mod_self_right, Nat.mod_eq_of_lt hlt]
  rw [hdiv, hmod]
  refine ⟨rfl, ?_, ?_⟩ <;> omega

theorem addMinutes_date_ge (dt : DateTime) (k : Nat) :
    (addMinutes dt k).date = dt.date ∨ dateLt dt.date (addMinutes dt k).date = true := by
  unfold addMinutes
  simp only
  cases Nat.eq_zero_or_pos ((dt.hour * 60 + dt.minute + k) / 1440) with
  | inl h0 => rw [h0]; left; rfl
  | inr hpos => right; exact dateLt_addDaysN dt.date _ hpos

/-- Midnight of a date is at or before any datetime whose date is that
date or later. -/
theorem atTime0_le (d : Date) (x : DateTime)
    (hdate : d = x.date ∨ dateLt d x.date = true) :
    dtLe (atTime d 0) x = true := by
  rcases hdate with hdate | hdate
  · unfold dtLe
    rw [Bool.or_eq_true]
    by_cases hz : x.hour = 0 ∧ x.minute = 0
    · right
      rw [beq_iff_eq]
      cases x with
      | mk xd xh xm =>
        simp only at hdate hz
        simp [atTime, hdate, hz.1, hz.2]
    · left
      rw [dtLt_iff]
      right
      refine ⟨hdate, ?_⟩
      have h1 : (atTime d 0).hour = 0 := rfl
      have h2 : (atTime d 0).minute = 0 := rfl
      omega
  · apply dtLe_of_dtLt
    rw [dtLt_iff]
    left
    exact hdate

/-- A datetime below some time on day D is below any time on a later
day. -/
theorem dtLt_atTime_next {x : DateTime} {D D2 : Date} {h h2 : Nat}
    (hx : dtLt x (atTime D h) = true) (hD : dateLt D D2 = true) :
    dtLt x (atTime D2 h2) = true := by
  rw [dtLt_iff] at hx ⊢
  left
  rcases hx with hx | ⟨he, _⟩
  · exact dateLt_trans hx hD
  · rw [he]
    exact hD

theorem dayStart_minute_lt (now : DateTime) (ws step o : Nat) :
    (Bot.dayStart now ws step o).minute < 60 := by
  unfold Bot.dayStart
  by_cases h0 : (o == 0) = true
  · rw [if_pos h0]
    exact addMinutes_minute_lt _ _
  · rw [if_neg (by simp_all)]
    simp [atTime]

/-- Midnight of the day-o date is at or before the day-o scan start. -/
theorem dayStartLB_le (now : DateTime) (hv : validDT now = true) (ws step o : Nat) :
    dtLe (atTime (addMinutes now (o * 1440)).date 0) (Bot.dayStart now ws step o) = true := by
  unfold Bot.dayStart
  by_cases h0 : (o == 0) = true
  · rw [if_pos h0]
    rw [beq_iff_eq] at h0
    subst h0
    have hnow : addMinutes now (0 * 1440) = ⟨addDaysN 0 now.date, now.hour, now.minute⟩ :=
      addMinutes_day_mult now hv 0
    rw [hnow]
    simp only [addDaysN]
    apply atTime0_le
    rcases addMinutes_date_ge (hourFloor now) ((now.minute / step + 1) * step) with h | h
    · left
      exact h.symm
    · right
      exact h
  · rw [if_neg (by simp_all)]
    apply atTime0_le
    left
    rfl

/-- Day dates strictly increase with the offset. -/
theorem dayDate_next (now : DateTime) (hv : validDT now = true) (o : Nat) :
    dateLt (addMinutes now (o * 1440)).date (addMinutes now ((o + 1) * 1440)).date = true := by
  rw [addMinutes_day_mult now hv o, addMinutes_day_mult now hv (o + 1)]
  simp only
  have : addDaysN (o + 1) now.date = nextDay (addDaysN o now.date) := rfl
  rw [this]
  exact dateLt_nextDay _

theorem len_bound_max (a limit : Nat) (h : a < limit ∨ a = 0) : a ≤ max limit 1 := by
  rcases h with h | h
  · exact Nat.le_trans (Nat.le_of_lt h) (Nat.le_max_left limit 1)
  · rw [h]; exact Nat.zero_le _

theorem len_bound_max_succ (a limit : Nat) (h : a < limit ∨ a = 0) :
    a + 1 ≤ max limit 1 := by
  rcases h with h | h
  · exact Nat.le_trans h (Nat.le_max_left limit 1)
  · rw [h]; exact Nat.le_max_right limit 1

/-- Invariant walk of the inner day loop of suggest_slots: whatever the
loop returns extends the accumulator with cursor values between the
entry cursor and the day end, each individually checked future and
available, in strictly increasing order, and the length bookkeeping of
the append-then-check limit test. -/
theorem scanDay_walk (now : DateTime) (fb : FB) (step limit : Nat) (endD : DateTime)
    (hstep : 0 < step) :
    ∀ fuel cur ms b l,
      cur.minute < 60 →
      (∀ x ∈ ms, dtLt x cur = true) →
      (ms.length < limit ∨ ms.length = 0) →
      Bot.scanDay now fb step limit endD fuel cur (ms.map fmtPair) = Except.ok (b, l) →
      ∃ msNew,
        l = (ms ++ msNew).map fmtPair ∧
        List.Pairwise (fun a c => dtLt a c = true) msNew ∧
        (∀ x ∈ msNew, dtLe cur x = true ∧ dtLt x endD = true ∧
          Bot.is_future_slot now (fmtD x) (fmtT x) 0 = true ∧
          Bot.is_time_available now fb (fmtD x) (fmtT x) = Except.ok true) ∧
        ms.length + msNew.length ≤ max limit 1 ∧
        (b = false → ms.length + msNew.length < limit ∨ ms.length + msNew.length = 0) := by
  intro fuel
  induction fuel with
  | zero =>
    intro cur ms b l hmi hlt hlen h
    unfold Bot.scanDay at h
    simp only [Except.ok.injEq, Prod.mk.injEq] at h
    obtain ⟨hb, hl⟩ := h
    subst hb; subst hl
    refine ⟨[], by simp, List.Pairwise.nil, by simp, ?_, ?_⟩
    · simp only [List.length_nil, Nat.add_zero]
      exact len_bound_max _ _ hlen
    · intro _; simpa using hlen
  | succ f ih =>
    intro cur ms b l hmi hlt hlen h
    unfold Bot.scanDay at h
    by_cases hcond : dtLt cur endD = true
    · rw [if_pos hcond] at h
      by_cases hfut : Bot.is_future_slot now (fmtD cur) (fmtT cur) 0 = true
      · rw [if_pos hfut] at h
        cases hav : Bot.is_time_available now fb (fmtD cur) (fmtT cur) with
        | error u =>
          rw [hav] at h
          exact absurd h (by simp)
        | ok bav =>
          cases bav with
          | false =>
            rw [hav] at h
            obtain ⟨msNew, hl, hpw, hprops, hlen2, hb⟩ :=
              ih (addMinutes cur step) ms b l (addMinutes_minute_lt cur step)
                (fun x hx => dtLt_of_dtLt_of_dtLe (hlt x hx) (dtLe_addMinutes cur step hmi))
                hlen h
            refine ⟨msNew, hl, hpw, fun x hx => ?_, hlen2, hb⟩
            obtain ⟨hx1, hx2, hx3, hx4⟩ := hprops x hx
            exact ⟨dtLe_trans (dtLe_addMinutes cur step hmi) hx1, hx2, hx3, hx4⟩
          | true =>
            rw [hav] at h
            simp only [List.length_append, List.length_map, List.length_cons,
              List.length_nil] at h
            have hacc : ms.map fmtPair ++ [(fmtD cur, fmtT cur)] =
                (ms ++ [cur]).map fmtPair := by
              rw [List.map_append]
              rfl
            by_cases hlim : limit ≤ ms.length + 0 + 1
            · rw [if_pos hlim] at h
              simp only [Except.ok.injEq, Prod.mk.injEq] at h
              obtain ⟨hb, hl⟩ := h
              subst hb
              refine ⟨[cur], ?_, ?_, ?_, ?_, ?_⟩
              · rw [← hl]
                exact hacc
              · exact List.pairwise_singleton _ _
              · intro x hx
                rw [List.mem_singleton] at hx
                subst hx
                exact ⟨dtLe_refl _, hcond, hfut, hav⟩
              · simp only [List.length_singleton]
                exact len_bound_max_succ _ _ hlen
              · intro hb
                exact absurd hb (by simp)
            · rw [if_neg hlim] at h
              rw [hacc] at h
              obtain ⟨msNew, hl, hpw, hprops, hlen2, hb⟩ :=
                ih (addMinutes cur step) (ms ++ [cur]) b l (addMinutes_minute_lt cur step)
                  (fun x hx => by
                    rw [List.mem_append, List.mem_singleton] at hx
                    rcases hx with hx | hx
                    · exact dtLt_trans (hlt x hx) (dtLt_addMinutes cur step hmi hstep)
                    · subst hx
                      exact dtLt_addMinutes _ step hmi hstep)
                  (Or.inl (by simp only [List.length_append, List.length_singleton]; omega))
                  h
              refine ⟨cur :: msNew, ?_, ?_, ?_, ?_, ?_⟩
              · rw [hl, List.append_assoc]
                rfl
              · rw [List.pairwise_cons]
                refine ⟨fun y hy => ?_, hpw⟩
                obtain ⟨hy1, _, _, _⟩ := hprops y hy
                exact dtLt_of_dtLt_of_dtLe (dtLt_addMinutes cur step hmi hstep) hy1
              · intro x hx
                rw [List.mem_cons] at hx
                rcases hx with hx | hx
                · subst hx
                  exact ⟨dtLe_refl _, hcond, hfut, hav⟩
                · obtain ⟨hx1, hx2, hx3, hx4⟩ := hprops x hx
                  exact ⟨dtLe_trans (dtLe_addMinutes cur step hmi) hx1, hx2, hx3, hx4⟩
              · simp only [List.length_append, List.length_singleton] at hlen2
                simp only [List.length_cons]
                omega
              · intro hbf
                simp only [List.length_append, List.length_singleton] at hb
                simp only [List.length_cons]
                have := hb hbf
                omega
      · rw [if_neg hfut] at h
        obtain ⟨msNew, hl, hpw, hprops, hlen2, hb⟩ :=
          ih (addMinutes cur step) ms b l (addMinutes_minute_lt cur step)
            (fun x hx => dtLt_of_dtLt_of_dtLe (hlt x hx) (dtLe_addMinutes cur step hmi))
            hlen h
        refine ⟨msNew, hl, hpw, fun x hx => ?_, hlen2, hb⟩
        obtain ⟨hx1, hx2, hx3, hx4⟩ := hprops x hx
        exact ⟨dtLe_trans (dtLe_addMinutes cur step hmi) hx1, hx2, hx3, hx4⟩
    · rw [if_neg hcond] at h
      simp only [Except.ok.injEq, Prod.mk.injEq] at h
      obtain ⟨hb, hl⟩ := h
      subst hb; subst hl
      refine ⟨[], by simp, List.Pairwise.nil, by simp, ?_, ?_⟩
      · simp only [List.length_nil, Nat.add_zero]
        exact len_bound_max _ _ hlen
      · intro _; simpa using hlen

/-- Invariant walk of the day loop of suggest_slots: everything returned
is an ordered list of checked cursors, each lying between its day's scan
start and that day's work-end bound. -/
theorem scanDays_walk (now : DateTime) (fb : FB) (ws we step limit : Nat)
    (hv : validDT now = true) (hstep : 0 < step) :
    ∀ n, ∀ o ms l,
      List.Pairwise (fun a c => dtLt a c = true) ms →
      (∀ x ∈ ms, dtLt x (atTime (addMinutes now (o * 1440)).date 0) = true) →
      (∀ x ∈ ms,
        Bot.is_future_slot now (fmtD x) (fmtT x) 0 = true ∧
        Bot.is_time_available now fb (fmtD x) (fmtT x) = Except.ok true) →
      (∀ x ∈ ms, ∃ o2, o2 < o ∧
        dtLe (Bot.dayStart now ws step o2) x = true ∧
        dtLt x (Bot.dayEnd now we o2) = true) →
      (ms.length < limit ∨ ms.length = 0) →
      Bot.scanDays now fb ws we step limit n o (ms.map fmtPair) = Except.ok l →
      ∃ msT,
        l = msT.map fmtPair ∧
        List.Pairwise (fun a c => dtLt a c = true) msT ∧
        msT.length ≤ max limit 1 ∧
        (∀ x ∈ msT,
          Bot.is_future_slot now (fmtD x) (fmtT x) 0 = true ∧
          Bot.is_time_available now fb (fmtD x) (fmtT x) = Except.ok true) ∧
        (∀ x ∈ msT, ∃ o2, o2 < o + n ∧
          dtLe (Bot.dayStart now ws step o2) x = true ∧
          dtLt x (Bot.dayEnd now we o2) = true) := by
  intro n
  induction n with
  | zero =>
    intro o ms l hpw hmid hchk hbnd hlen h
    unfold Bot.scanDays at h
    simp only [Except.ok.injEq] at h
    refine ⟨ms, h.symm, hpw, len_bound_max _ _ hlen, hchk, fun x hx => ?_⟩
    obtain ⟨o2, ho2, hb1, hb2⟩ := hbnd x hx
    exact ⟨o2, by omega, hb1, hb2⟩
  | succ k ih =>
    intro o ms l hpw hmid hchk hbnd hlen h
    unfold Bot.scanDays at h
    cases hscan : Bot.scanDay now fb step limit (Bot.dayEnd now we o) Bot.dayFuel
        (Bot.dayStart now ws step o) (ms.map fmtPair) with
    | error u =>
      rw [hscan] at h
      exact absurd h (by simp)
    | ok p =>
      obtain ⟨bday, l2⟩ := p
      rw [hscan] at h
      obtain ⟨msNew, hl2, hpwNew, hprops, hlen2, hbday⟩ :=
        scanDay_walk now fb step limit (Bot.dayEnd now we o) hstep Bot.dayFuel
          (Bot.dayStart now ws step o) ms bday l2
          (dayStart_minute_lt now ws step o)
          (fun x hx => dtLt_of_dtLt_of_dtLe (hmid x hx) (dayStartLB_le now hv ws step o))
          hlen hscan
      have hpwAll : List.Pairwise (fun a c => dtLt a c = true) (ms ++ msNew) := by
        rw [List.pairwise_append]
        refine ⟨hpw, hpwNew, fun x hx y hy => ?_⟩
        have hx2 : dtLt x (Bot.dayStart now ws step o) = true :=
          dtLt_of_dtLt_of_dtLe (hmid x hx) (dayStartLB_le now hv ws step o)
        exact dtLt_of_dtLt_of_dtLe hx2 (hprops y hy).1
      have hchkAll : ∀ x ∈ ms ++ msNew,
          Bot.is_future_slot now (fmtD x) (fmtT x) 0 = true ∧
          Bot.is_time_available now fb (fmtD x) (fmtT x) = Except.ok true := by
        intro x hx
        rw [List.mem_append] at hx
        rcases hx with hx | hx
        · exact hchk x hx
        · obtain ⟨_, _, h3, h4⟩ := hprops x hx
          exact ⟨h3, h4⟩
      have hbndAll : ∀ x ∈ ms ++ msNew, ∃ o2, o2 < o + 1 ∧
          dtLe (Bot.dayStart now ws step o2) x = true ∧
          dtLt x (Bot.dayEnd now we o2) = true := by
        intro x hx
        rw [List.mem_append] at hx
        rcases hx with hx | hx
        · obtain ⟨o2, ho2, hb1, hb2⟩ := hbnd x hx
          exact ⟨o2, by omega, hb1, hb2⟩
        · obtain ⟨h1, h2, _, _⟩ := hprops x hx
          exact ⟨o, by omega, h1, h2⟩
      have hmidAll : ∀ x ∈ ms ++ msNew,
          dtLt x (atTime (addMinutes now ((o + 1) * 1440)).date 0) = true := by
        intro x hx
        rw [List.mem_append] at hx
        rcases hx with hx | hx
        · exact dtLt_atTime_next (hmid x hx) (dayDate_next now hv o)
        · exact dtLt_atTime_next (hprops x hx).2.1 (dayDate_next now hv o)
      cases bday with
      | true =>
        simp only [Except.ok.injEq] at h
        refine ⟨ms ++ msNew, by rw [← h, hl2], hpwAll, ?_, hchkAll, fun x hx => ?_⟩
        · rw [List.length_append]
          exact hlen2
        · obtain ⟨o2, ho2, hb1, hb2⟩ := hbndAll x hx
          exact ⟨o2, by omega, hb1, hb2⟩
      | false =>
        rw [hl2] at h
        obtain ⟨msT, hlT, hpwT, hlenT, hchkT, hbndT⟩ :=
          ih (o + 1) (ms ++ msNew) l hpwAll hmidAll hchkAll hbndAll
            (by rw [List.length_append]; exact hbday rfl) h
        refine ⟨msT, hlT, hpwT, hlenT, hchkT, fun x hx => ?_⟩
        obtain ⟨o2, ho2, hb1, hb2⟩ := hbndT x hx
        exact ⟨o2, by omega, hb1, hb2⟩

/-- Claim C8, counterexample: suggest_slots appends a candidate before
testing the limit, so a call with limit = 0 returns one candidate, more
than limit; the claim that every call returns at most limit candidates
is false at this input. -/
theorem claim8_counterexample :
    Bot.suggest_slots ⟨⟨2026, 1, 5⟩, 3, 12⟩ fbFree 10 20 30 0 0 60 =
        Except.ok [("2026-01-05", "03:30")] ∧
    (0 : Nat) < [("2026-01-05", "03:30")].length :=
  ⟨rfl, by decide⟩

/-- Claim C8 as amended: a call that returns does so with at most
max(limit, 1) candidates (so at most limit whenever limit ≥ 1), in
strictly increasing chronological order, and each candidate was
individually checked at scan time to be strictly future and free per the
availability oracle. -/
theorem claim8_amended (now : DateTime) (fb : FB)
    (ws we step days_ahead limit dur : Nat) (l : List (String × String))
    (hv : validDT now = true) (hstep : 0 < step)
    (h : Bot.suggest_slots now fb ws we step days_ahead limit dur = Except.ok l) :
    l.length ≤ max limit 1 ∧
    ∃ ms, l = ms.map fmtPair ∧
      List.Pairwise (fun a c => dtLt a c = true) ms ∧
      ∀ x ∈ ms,
        Bot.is_future_slot now (fmtD x) (fmtT x) 0 = true ∧
        Bot.is_time_available now fb (fmtD x) (fmtT x) = Except.ok true := by
  unfold Bot.suggest_slots at h
  obtain ⟨msT, hlT, hpwT, hlenT, hchkT, _⟩ :=
    scanDays_walk now fb ws we step limit hv hstep (days_ahead + 1) 0 [] l
      List.Pairwise.nil (by simp) (by simp) (by simp) (Or.inr rfl) h
  refine ⟨?_, msT, hlT, hpwT, hchkT⟩
  rw [hlT]
  simpa using hlenT

/-- Claim C8 witness. -/
theorem claim8_witness :
    ([("2026-01-05", "03:30"), ("2026-01-05", "04:00"),
        ("2026-01-05", "04:30")] : List (String × String)).length ≤ max 3 1 ∧
    ∃ ms : List DateTime, ([("2026-01-05", "03:30"), ("2026-01-05", "04:00"),
        ("2026-01-05", "04:30")] : List (String × String)) = ms.map fmtPair ∧
      List.Pairwise (fun a c => dtLt a c = true) ms ∧
      ∀ x ∈ ms,
        Bot.is_future_slot ⟨⟨2026, 1, 5⟩, 3, 12⟩ (fmtD x) (fmtT x) 0 = true ∧
        Bot.is_time_available ⟨⟨2026, 1, 5⟩, 3, 12⟩ fbFree (fmtD x) (fmtT x) =
          Except.ok true :=
  claim8_amended ⟨⟨2026, 1, 5⟩, 3, 12⟩ fbFree 10 20 30 1 3 60
    [("2026-01-05", "03:30"), ("2026-01-05", "04:00"), ("2026-01-05", "04:30")]
    rfl (by decide) rfl

/-- Claim C5, counterexample: on the first scanned day the cursor starts
at now rounded up to the next step, without clamping to
work_start_hour; with the clock at 03:12 and working hours 10..20 the
first suggested candidate is 03:30, before the work start, so the
claimed lower bound max(work_start_hour, rounded start) is false at
this input. -/
theorem claim5_counterexample :
    Bot.suggest_slots ⟨⟨2026, 1, 5⟩, 3, 12⟩ fbFree 10 20 30 0 1 60 =
        Except.ok [("2026-01-05", "03:30")] ∧
    dtLt ⟨⟨2026, 1, 5⟩, 3, 30⟩ (atTime ⟨2026, 1, 5⟩ 10) = true :=
  ⟨rfl, rfl⟩

/-- Claim C5 as amended: every returned candidate lies between its day's
scan start and that day's work-end instant: on the first day the scan
starts at now's hour floor plus ((minute // step) + 1) * step minutes
(not clamped to work_start_hour), on later days at work_start_hour:00;
and every candidate starts strictly before work_end_hour:00 of its day
(the check is cursor < end, so candidate + duration may cross the work
end). -/
theorem claim5_amended (now : DateTime) (fb : FB)
    (ws we step days_ahead limit dur : Nat) (l : List (String × String))
    (hv : validDT now = true) (hstep : 0 < step)
    (h : Bot.suggest_slots now fb ws we step days_ahead limit dur = Except.ok l) :
    ∃ ms : List DateTime, l = ms.map fmtPair ∧
      ∀ x ∈ ms, ∃ o, o ≤ days_ahead ∧
        dtLe (Bot.dayStart now ws step o) x = true ∧
        dtLt x (Bot.dayEnd now we o) = true := by
  unfold Bot.suggest_slots at h
  obtain ⟨msT, hlT, _, _, _, hbndT⟩ :=
    scanDays_walk now fb ws we step limit hv hstep (days_ahead + 1) 0 [] l
      List.Pairwise.nil (by simp) (by simp) (by simp) (Or.inr rfl) h
  refine ⟨msT, hlT, fun x hx => ?_⟩
  obtain ⟨o2, ho2, hb1, hb2⟩ := hbndT x hx
  exact ⟨o2, by omega, hb1, hb2⟩

/-- Claim C5 witness. -/
theorem claim5_witness :
    ∃ ms : List DateTime, ([("2026-01-05", "10:30"), ("2026-01-05", "11:00"),
        ("2026-01-05", "11:30"), ("2026-01-05", "12:00")] : List (String × String)) =
        ms.map fmtPair ∧
      ∀ x ∈ ms, ∃ o, o ≤ 0 ∧
        dtLe (Bot.dayStart ⟨⟨2026, 1, 5⟩, 10, 7⟩ 10 30 o) x = true ∧
        dtLt x (Bot.dayEnd ⟨⟨2026, 1, 5⟩, 10, 7⟩ 20 o) = true :=
  claim5_amended ⟨⟨2026, 1, 5⟩, 10, 7⟩ fbFree 10 20 30 0 4 60
    [("2026-01-05", "10:30"), ("2026-01-05", "11:00"),
      ("2026-01-05", "11:30"), ("2026-01-05", "12:00")]
    rfl (by decide) rfl
